import Mathlib

/-
Verification development for the ociswap time-weighted price oracle
(`src/oracle.rs`).

Modelling conventions (shallow embedding):

* `Decimal` (18 decimal places) and `PreciseDecimal` (36 decimal places) are
  modelled as integers holding the scaled subunit value (`Dec` and `PDec`).
  Addition, subtraction and multiplication by an integer number of
  seconds/minutes are exact on subunits, matching the fixed-point types.
  Division by an unsigned integer truncates toward zero, matching the
  underlying two's-complement integer division of the scrypto decimal types.
* `Instant` is the number of seconds since the Unix epoch, a natural number.
  `minutes()` is division by 60, `seconds_marginal()` is the remainder.
* The transcendental functions `ln` (on `PreciseDecimal`, from scrypto_math)
  and `exp` (on `Decimal`) are abstracted as a parameter record `NumLib`;
  both are partial (`Option`), mirroring the `Option` results of the library
  whose `unwrap` panics the transaction.
* The `KeyValueStore<u16, AccumulatedObservation>` is modelled as a total
  function `Nat → AccumulatedObservation`; a fresh store maps every key to
  the empty observation.  The oracle never reads a slot it has not written
  while its invariants hold, so the defaulting is unobservable there.
* Panics abort the whole transaction on the ledger, so the externally
  visible (transactional) semantics of a fallible operation is
  `Option`/`Except`: the error branch commits no state.  A second,
  memory-level semantics for `observe` (`observeMem`) additionally reports
  the in-memory state at the panic point.
-/

namespace Oci

/-- Scaled-subunit model of scrypto `Decimal` (18 decimal places). -/
abbrev Dec := ℤ

/-- Scaled-subunit model of scrypto `PreciseDecimal` (36 decimal places). -/
abbrev PDec := ℤ

/-- Instant.seconds_marginal(): second offset within the current minute. -/
def secondsMarginal (t : ℕ) : ℕ := t % 60

/-- Instant.minutes(): whole minutes since the Unix epoch. -/
def minutesOf (t : ℕ) : ℕ := t / 60

/-- Division of a `Decimal` by an unsigned integer: the scaled-integer
division truncates toward zero, as the underlying I192 division does. -/
def decDiv (a : Dec) (k : ℕ) : Dec := Int.tdiv a k

/-- Division of a `PreciseDecimal` by an unsigned integer (truncating
toward zero, as the underlying I256 division does). -/
def pdecDiv (a : PDec) (k : ℕ) : PDec := Int.tdiv a k

/-- checked_truncate(RoundingMode::ToNegativeInfinity): conversion of a
`PreciseDecimal` (36 decimals) to a `Decimal` (18 decimals) by flooring,
i.e. floor division of the subunit value by 10^18. -/
def truncToNegInf (x : PDec) : Dec := Int.fdiv x (10 ^ 18)

/-- The transcendental operations the oracle imports: `ln` on
`PreciseDecimal` (scrypto_math, `None` on domain error) and `exp` on
`Decimal` (`None` on domain/overflow error).  The oracle's logic is
independent of the numeric approximation, so both are parameters. -/
structure NumLib where
  ln : PDec → Option PDec
  exp : Dec → Option Dec

/-- Natural logarithm truncated toward negative infinity at `Decimal`
precision: `x.ln().checked_truncate(ToNegativeInfinity)` (oracle.rs
lines 540-549). -/
def floor_ln (L : NumLib) (x : PDec) : Option Dec :=
  (L.ln x).map truncToNegInf

/-- accumulated_log (oracle.rs 534-552): `acc + ln(finalized).floor +
(minutes_since_last - 1) * ln(last_value).floor`, where the subtraction is
on u64 and each `ln(...).unwrap()` panics (`none`) when `ln` fails. -/
def accumulated_log (L : NumLib) (acc_value : Dec) (finalized last_value : PDec)
    (minutes_since_last : ℕ) : Option Dec :=
  match floor_ln L finalized, floor_ln L last_value with
  | some finalized_log, some last_value_log =>
      some (acc_value + finalized_log + ((minutes_since_last - 1 : ℕ) : ℤ) * last_value_log)
  | _, _ => none

/-- linear_interpolation (oracle.rs 647-656): slope is a truncating
`Decimal` division by the u64 timestamp difference. -/
def linear_interpolation (x_left x_right : ℕ) (y_left y_right : Dec)
    (x_target : ℕ) : Dec :=
  let slope := decDiv (y_right - y_left) (x_right - x_left)
  y_left + slope * ((x_target - x_left : ℕ) : ℤ)

/-- arithmetic_mean (oracle.rs 668-670). -/
def arithmetic_mean (x_left x_right : ℕ) (y_left y_right : Dec) : Dec :=
  decDiv (y_right - y_left) (x_right - x_left)

/-- geometric_mean (oracle.rs 682-685): `exp` of the arithmetic mean of the
log-accumulator slope; the `unwrap` panic is `none`. -/
def geometric_mean (L : NumLib) (x_left x_right : ℕ) (y_left y_right : Dec) :
    Option Dec :=
  L.exp (arithmetic_mean x_left x_right y_left y_right)

/-- A concrete `NumLib` instance used by witnesses: both transcendental
functions are defined everywhere and return zero. -/
def numLib0 : NumLib where
  ln := fun _ => some 0
  exp := fun _ => some 0

/-- The SubObservations object (oracle.rs 10-22): accumulates the
time-weighted sum of price square roots within the open minute. -/
structure SubObservations where
  price_sqrt_sum : PDec
  price_sqrt_last : PDec
  last_updated : ℕ
  initialization : Option ℕ
deriving DecidableEq

/-- SubObservations::new (oracle.rs 25-32), with the clock reading passed
explicitly. -/
def SubObservations.new (now : ℕ) : SubObservations where
  last_updated := now
  initialization := some now
  price_sqrt_sum := 0
  price_sqrt_last := 0

/-- SubObservations::new_subobservation (oracle.rs 43-59): accumulate the
previous price over the seconds it was in force (same-second calls skip the
accumulation), then unconditionally record the new last price. -/
def new_subobservation (s : SubObservations) (now : ℕ) (price_sqrt : PDec) :
    SubObservations :=
  let s1 :=
    if now ≠ s.last_updated then
      let delta_marginal_seconds := secondsMarginal now - secondsMarginal s.last_updated
      { s with
        price_sqrt_sum := s.price_sqrt_sum + s.price_sqrt_last * (delta_marginal_seconds : ℤ),
        last_updated := now }
    else s
  { s1 with price_sqrt_last := price_sqrt }

/-- SubObservations::price_sqrt_average (oracle.rs 129-134). -/
def price_sqrt_average (s : SubObservations) (duration : ℕ) : PDec :=
  let delta_marginal_seconds := 60 - secondsMarginal s.last_updated
  let price_sqrt_sum := s.price_sqrt_sum + s.price_sqrt_last * (delta_marginal_seconds : ℤ)
  pdecDiv price_sqrt_sum duration

/-- SubObservations::finalize (oracle.rs 69-93): returns the average for
the closed minute and the reset accumulator (initialization taken,
`last_updated` set to the current minute boundary, sum cleared, last price
kept). -/
def finalize (s : SubObservations) (now : ℕ) : PDec × SubObservations :=
  let duration :=
    match s.initialization with
    | some instant => 60 - secondsMarginal instant
    | none => 60
  let price_sqrt_avg := price_sqrt_average s duration
  (price_sqrt_avg,
   { s with
     initialization := none
     last_updated := now / 60 * 60
     price_sqrt_sum := 0 })

/-- Error kinds of the oracle (spec section 7); panics that are not one of
the documented error conditions (failed `unwrap`s, a non-terminating loop)
are `internalFailure`. -/
inductive OErr where
  | queryBeforeAnyObservation
  | timestampOutOfRange
  | emptyInterval
  | previewBeforeFinalize
  | internalFailure
deriving DecidableEq

deriving instance DecidableEq for Except

/-- SubObservations::finalize_preview (oracle.rs 107-114): asserts that
initialization has been cleared, then averages over a full 60 seconds. -/
def finalize_preview (s : SubObservations) : Except OErr PDec :=
  if s.initialization.isSome then .error .previewBeforeFinalize
  else .ok (price_sqrt_average s 60)

/-- AccumulatedObservation (oracle.rs 491-497). -/
structure AccumulatedObservation where
  timestamp : ℕ
  price_sqrt_log_acc : Dec
deriving DecidableEq

/-- AccumulatedObservation::empty (oracle.rs 513-520). -/
def AccumulatedObservation.empty : AccumulatedObservation where
  timestamp := 0
  price_sqrt_log_acc := 0

/-- ObservationInterval (oracle.rs 503-511); `end` is a Lean keyword, so
the field is `end_`. -/
structure ObservationInterval where
  start : ℕ
  end_ : ℕ
  price_sqrt : Dec
deriving DecidableEq

/-- The Oracle state (oracle.rs 137-150).  The key-value store of
observations is a total function on slot numbers; a freshly created store
holds the empty observation in every slot (the code never reads an
unwritten slot while its invariants hold). -/
structure Oracle where
  observations : ℕ → AccumulatedObservation
  last_observation_index : Option ℕ
  observations_stored : ℕ
  sub_observations : Option SubObservations
  observations_limit : ℕ

/-- Oracle::new (oracle.rs 153-161). -/
def Oracle.new (observations_limit : ℕ) : Oracle where
  observations := fun _ => AccumulatedObservation.empty
  observations_stored := 0
  last_observation_index := none
  sub_observations := none
  observations_limit := observations_limit

/-- Oracle::insert_observation (oracle.rs 264-283): advance the index
(wrapping modulo `observations_limit`), overwrite the slot, saturate the
stored count at the limit. -/
def insert_observation (st : Oracle) (observation : AccumulatedObservation) : Oracle :=
  let new_index :=
    match st.last_observation_index with
    | none => 0
    | some last_observation_index => (last_observation_index + 1) % st.observations_limit
  { st with
    last_observation_index := some new_index
    observations := Function.update st.observations new_index observation
    observations_stored := min (st.observations_stored + 1) st.observations_limit }

/-- Oracle::oldest_index (oracle.rs 481-484).  Note the modulus is
`observations_stored`, not `observations_limit`.  (In Rust, `x % 0`
panics; Lean's `x % 0 = x`.  The expression is only reached with
`observations_stored = 0` on states violating the invariant
`stored = 0 iff index = none`, which the theorems below assume.) -/
def oldest_index (st : Oracle) : Option ℕ :=
  st.last_observation_index.map (fun index => (index + 1) % st.observations_stored)

/-- Oracle::oldest_observation_timestamp_minutes (oracle.rs 448-452). -/
def oldest_observation_timestamp_minutes (st : Oracle) : Option ℕ :=
  (oldest_index st).map (fun index => (st.observations index).timestamp)

/-- Oracle::oldest_observation_timestamp (oracle.rs 460-463). -/
def oldest_observation_timestamp (st : Oracle) : Option ℕ :=
  (oldest_observation_timestamp_minutes st).map (fun timestamp => timestamp * 60)

/-- The loop of binary_search_and_interpolation (oracle.rs 580-618), with
explicit fuel (the Rust loop is unbounded; exhausted fuel models a
non-returning execution).  The loop variables `left`, `right`, `mid` are
u16 in the source: the addition in `mid = (left + right) / 2` overflows
once `left + right` reaches `2^16`, which aborts under the overflow checks
scrypto packages are built with (without them the wrapped sum would index
the wrong slots); the overflow is modelled as the `none` panic outcome.
`Sum.inl` is an exact hit returned directly, `Sum.inr` is the adjacent
pair handed to the interpolation. -/
def binary_search_loop (observations : ℕ → AccumulatedObservation)
    (observations_stored target_timestamp : ℕ) :
    ℕ → ℕ → ℕ →
    Option (AccumulatedObservation ⊕ AccumulatedObservation × AccumulatedObservation)
  | 0, _, _ => none
  | fuel + 1, left, right =>
    if 2 ^ 16 ≤ left + right then none
    else
      let mid := (left + right) / 2
      let index_mid := mid % observations_stored
      let observation_mid := observations index_mid
      if observation_mid.timestamp = target_timestamp then
        some (.inl observation_mid)
      else if mid = left then
        let index_right := right % observations_stored
        let observation_right := observations index_right
        if observation_right.timestamp = target_timestamp then
          some (.inl observation_right)
        else
          some (.inr (observation_mid, observation_right))
      else if observation_mid.timestamp < target_timestamp then
        binary_search_loop observations observations_stored target_timestamp fuel mid right
      else
        binary_search_loop observations observations_stored target_timestamp fuel left mid

/-- binary_search_and_interpolation (oracle.rs 570-633).  The computation
`right = left + observations_stored - 1` is u16 arithmetic: the addition
overflows at `2^16` (and the subtraction underflows when both operands are
zero), aborting the call; both panics are modelled as the internal
failure.  The fuel `observations_stored` strictly dominates the initial
index distance `right - left = observations_stored - 1`, and the distance
shrinks every iteration, so the fuel is never exhausted on reachable
inputs (proved below). -/
def binary_search_and_interpolation (observations : ℕ → AccumulatedObservation)
    (oldest_index observations_stored target_timestamp : ℕ) :
    Except OErr AccumulatedObservation :=
  if 2 ^ 16 ≤ oldest_index + observations_stored ∨
      oldest_index + observations_stored = 0 then
    .error .internalFailure
  else
    let left := oldest_index
    let right := left + observations_stored - 1
    match binary_search_loop observations observations_stored target_timestamp
        observations_stored left right with
    | none => .error .internalFailure
    | some (.inl observation) => .ok observation
    | some (.inr (o_left, o_right)) =>
        .ok { timestamp := target_timestamp
              price_sqrt_log_acc :=
                linear_interpolation o_left.timestamp o_right.timestamp
                  o_left.price_sqrt_log_acc o_right.price_sqrt_log_acc target_timestamp }

/-- The `minutes_since_last` computation of Oracle::create_observation
(oracle.rs 220): `now_minutes - sub_observations.last_updated.minutes()`
on u64 (natural subtraction here; underflow-freedom is claim C10). -/
def minutesSinceLast (s : SubObservations) (now : ℕ) : ℕ :=
  now / 60 - s.last_updated / 60

/-- Oracle::create_observation (oracle.rs 216-256), with the clock reading
passed explicitly.  Returns the new observation together with the
finalized sub-accumulator; `none` marks a panic (a failed `ln` inside
`accumulated_log`, or — on invariant-violating states — a failed `unwrap`
of `last_observation_index`).  Note the sub-accumulator is finalized
(mutated) before `accumulated_log` can panic. -/
def create_observation (L : NumLib) (st : Oracle) (now : ℕ) :
    Option (AccumulatedObservation × SubObservations) :=
  match st.sub_observations with
  | none => none
  | some sub_observations =>
    let now_minutes := now / 60
    let minutes_since_last := minutesSinceLast sub_observations now
    let finalized_pair := finalize sub_observations now
    let finalized := finalized_pair.1
    let sub := finalized_pair.2
    if st.observations_stored = 0 then
      (accumulated_log L 0 finalized sub.price_sqrt_last minutes_since_last).map
        (fun v => ({ timestamp := now_minutes, price_sqrt_log_acc := v }, sub))
    else
      match st.last_observation_index with
      | none => none
      | some last_observation_index =>
        let last_observation := st.observations last_observation_index
        (accumulated_log L last_observation.price_sqrt_log_acc finalized
            sub.price_sqrt_last minutes_since_last).map
          (fun v => ({ timestamp := now_minutes, price_sqrt_log_acc := v }, sub))

/-- Memory-level semantics of Oracle::observe (oracle.rs 181-200), with the
clock reading passed explicitly.  The second component is `some e` when the
call panics; the first component is then the in-memory state at the panic
point (the ledger discards it by aborting the transaction, see
`observe`). -/
def observeMem (L : NumLib) (st : Oracle) (now : ℕ) (price_sqrt : PDec) :
    Oracle × Option OErr :=
  match st.sub_observations with
  | none =>
    ({ st with
       sub_observations := some (new_subobservation (SubObservations.new now) now price_sqrt) },
     none)
  | some sub_observations =>
    if now / 60 ≠ sub_observations.last_updated / 60 then
      match create_observation L st now with
      | none =>
        -- the panic in accumulated_log happens after finalize has already
        -- reset the sub-accumulator
        ({ st with sub_observations := some (finalize sub_observations now).2 },
         some .internalFailure)
      | some (observation, sub) =>
        let st1 := insert_observation { st with sub_observations := some sub } observation
        ({ st1 with
           sub_observations := some (new_subobservation sub now price_sqrt) },
         none)
    else
      ({ st with
         sub_observations := some (new_subobservation sub_observations now price_sqrt) },
       none)

/-- Transactional semantics of Oracle::observe: a panic aborts the whole
transaction, so no state is committed on failure. -/
def observe (L : NumLib) (st : Oracle) (now : ℕ) (price_sqrt : PDec) : Option Oracle :=
  match observeMem L st now price_sqrt with
  | (st1, none) => some st1
  | (_, some _) => none

/-- Oracle::observation_internal (oracle.rs 321-371), with the clock
reading passed explicitly. -/
def observation_internal (L : NumLib) (st : Oracle) (now : ℕ) (target_minutes : ℕ) :
    Except OErr AccumulatedObservation :=
  let now_minutes := now / 60
  match oldest_observation_timestamp_minutes st with
  | none => .error .queryBeforeAnyObservation
  | some oldest_timestamp =>
    if ¬ (oldest_timestamp ≤ target_minutes ∧ target_minutes ≤ now_minutes) then
      .error .timestampOutOfRange
    else
      match st.last_observation_index with
      | none => .error .internalFailure
      | some last_observation_index =>
        let last_observation := st.observations last_observation_index
        if target_minutes = last_observation.timestamp then
          .ok last_observation
        else
          match st.sub_observations with
          | none => .error .internalFailure
          | some sub_observations =>
            if last_observation.timestamp < target_minutes then
              let minutes_since_last := target_minutes - last_observation.timestamp
              match finalize_preview sub_observations with
              | .error e => .error e
              | .ok preview =>
                match accumulated_log L last_observation.price_sqrt_log_acc preview
                    sub_observations.price_sqrt_last minutes_since_last with
                | none => .error .internalFailure
                | some price_sqrt_log_acc =>
                  .ok { timestamp := target_minutes, price_sqrt_log_acc := price_sqrt_log_acc }
            else
              match oldest_index st with
              | none => .error .internalFailure
              | some oi =>
                binary_search_and_interpolation st.observations oi
                  st.observations_stored target_minutes

/-- Oracle::observation (oracle.rs 295-299): floor the seconds to minutes,
query, scale the returned timestamp back to seconds. -/
def observation (L : NumLib) (st : Oracle) (now : ℕ) (seconds : ℕ) :
    Except OErr AccumulatedObservation :=
  (observation_internal L st now (seconds / 60)).map
    (fun o => { o with timestamp := o.timestamp * 60 })

/-- Oracle::observation_intervals (oracle.rs 385-422), one interval at a
time in input order. -/
def observation_intervals (L : NumLib) (st : Oracle) (now : ℕ) :
    List (ℕ × ℕ) → Except OErr (List ObservationInterval)
  | [] => .ok []
  | (t_left_seconds, t_right_seconds) :: rest =>
    let t_left_minutes := t_left_seconds / 60
    let t_right_minutes := t_right_seconds / 60
    if ¬ t_left_minutes < t_right_minutes then .error .emptyInterval
    else
      match observation_internal L st now t_left_minutes with
      | .error e => .error e
      | .ok o_l =>
        match observation_internal L st now t_right_minutes with
        | .error e => .error e
        | .ok o_r =>
          match geometric_mean L t_left_minutes t_right_minutes
              o_l.price_sqrt_log_acc o_r.price_sqrt_log_acc with
          | none => .error .internalFailure
          | some price_sqrt =>
            match observation_intervals L st now rest with
            | .error e => .error e
            | .ok avgs =>
              .ok ({ start := t_left_minutes * 60
                     end_ := t_right_minutes * 60
                     price_sqrt := price_sqrt } :: avgs)

/-- Conclusion of claim C2, at virtual index range `[oldest, oldest +
stored)` mapped to physical slots via `mod stored`: the search terminates
with an `ok` result timestamped at the target; it returns a stored
observation exactly when one carries the target timestamp, and otherwise
linearly interpolates over the adjacent stored pair bracketing the target;
and it reads only the slots below `stored`. -/
def BinarySearchSpec (obs : ℕ → AccumulatedObservation)
    (oldest stored target : ℕ) : Prop :=
  (∃ o, binary_search_and_interpolation obs oldest stored target = .ok o ∧
    o.timestamp = target ∧
    ((∃ v, oldest ≤ v ∧ v < oldest + stored ∧ o = obs (v % stored) ∧
        (obs (v % stored)).timestamp = target) ∨
     ((∀ v, oldest ≤ v → v < oldest + stored → (obs (v % stored)).timestamp ≠ target) ∧
      ∃ k, oldest ≤ k ∧ k + 1 < oldest + stored ∧
        (obs (k % stored)).timestamp < target ∧
        target < (obs ((k + 1) % stored)).timestamp ∧
        o.price_sqrt_log_acc =
          linear_interpolation (obs (k % stored)).timestamp
            (obs ((k + 1) % stored)).timestamp
            (obs (k % stored)).price_sqrt_log_acc
            (obs ((k + 1) % stored)).price_sqrt_log_acc target))) ∧
  (∀ g : ℕ → AccumulatedObservation, (∀ j, j < stored → obs j = g j) →
    binary_search_and_interpolation obs oldest stored target =
      binary_search_and_interpolation g oldest stored target)

/-- Concrete ring used by the C2 witness: physical slots 0, 1, 2 hold the
observations for minutes 30, 10, 20, so ring order from oldest index 1 is
10, 20, 30. -/
def obsW : ℕ → AccumulatedObservation := fun n =>
  if n = 0 then ⟨30, 300⟩ else if n = 1 then ⟨10, 100⟩ else ⟨20, 200⟩

/-- Concrete ring used by the C2 counterexample: 32769 slots whose
timestamps increase strictly along the ring walk starting at oldest index
32768 (slot `n` holds the observation for ring position `(n + 1) mod
32769`, timestamped `100 + 10 * position`). -/
def obsBig : ℕ → AccumulatedObservation := fun n =>
  { timestamp := 100 + (n + 1) % 32769 * 10, price_sqrt_log_acc := 0 }

/-- Conclusion of claim C8 (amended): `observation_internal` fails with
`QueryBeforeAnyObservation` on an empty oracle and with
`TimestampOutOfRange` on out-of-range targets, and produces neither
failure for in-range targets on a non-empty oracle; `observation`
inherits the empty-oracle failure for every input, and
`observation_intervals` propagates an endpoint failure of any pair it
processes (so it fails the same two ways through its endpoint queries)
while a list whose pairs are all in range on a non-empty oracle never
produces either failure. -/
def ObservationErrorSpec (L : NumLib) (st : Oracle) (now target : ℕ) : Prop :=
  (st.observations_stored = 0 →
    observation_internal L st now target = .error .queryBeforeAnyObservation)
  ∧ (st.observations_stored = 0 → ∀ seconds,
      observation L st now seconds = .error .queryBeforeAnyObservation)
  ∧ (∀ ots, oldest_observation_timestamp_minutes st = some ots →
      (target < ots ∨ now / 60 < target) →
      observation_internal L st now target = .error .timestampOutOfRange)
  ∧ (∀ ots, oldest_observation_timestamp_minutes st = some ots →
      ots ≤ target → target ≤ now / 60 →
      observation_internal L st now target ≠ .error .queryBeforeAnyObservation ∧
      observation_internal L st now target ≠ .error .timestampOutOfRange)
  ∧ (∀ a b : ℕ, ∀ rest : List (ℕ × ℕ), ∀ e, a / 60 < b / 60 →
      observation_internal L st now (a / 60) = .error e →
      observation_intervals L st now ((a, b) :: rest) = .error e)
  ∧ (∀ a b : ℕ, ∀ rest : List (ℕ × ℕ), ∀ o_l e, a / 60 < b / 60 →
      observation_internal L st now (a / 60) = .ok o_l →
      observation_internal L st now (b / 60) = .error e →
      observation_intervals L st now ((a, b) :: rest) = .error e)
  ∧ (∀ ots, oldest_observation_timestamp_minutes st = some ots →
      ∀ pairs : List (ℕ × ℕ),
        (∀ ab ∈ pairs, ab.1 / 60 < ab.2 / 60 ∧ ots ≤ ab.1 / 60 ∧ ab.1 / 60 ≤ now / 60 ∧
          ots ≤ ab.2 / 60 ∧ ab.2 / 60 ≤ now / 60) →
        observation_intervals L st now pairs ≠ .error .queryBeforeAnyObservation ∧
        observation_intervals L st now pairs ≠ .error .timestampOutOfRange)

/-- Concrete oracle used in witnesses: one stored observation at minute 10
(slot 0), sub-accumulator past its first finalize and last touched at
second 660 (minute 11). -/
def oracle3 : Oracle where
  observations := fun n => if n = 0 then ⟨10, 100⟩ else AccumulatedObservation.empty
  last_observation_index := some 0
  observations_stored := 1
  sub_observations := some ⟨0, 5, 660, none⟩
  observations_limit := 4

/-- Transactional `observe` with ledger rollback: a failing call leaves the
committed state unchanged. -/
def observeRoll (L : NumLib) (st : Oracle) (now : ℕ) (p : PDec) : Oracle :=
  match observe L st now p with
  | some st1 => st1
  | none => st

/-- Run a sequence of `observe` calls, each given as an (instant, price)
pair, against the committed state. -/
def runObserve (L : NumLib) (st : Oracle) : List (ℕ × PDec) → Oracle
  | [] => st
  | (t, p) :: rest => runObserve L (observeRoll L st t p) rest

/-- The inductive ring invariant of the oracle (spec section 3), plus the
auxiliary facts needed to push it through `observe`: the stored count is
bounded by the limit and is zero exactly when no index exists; while the
ring is not full the newest index is `stored - 1`; timestamps are strictly
increasing along the ring walk `(last + 1 + i) % stored`; and the newest
stored timestamp never exceeds the sub-accumulator's minute. -/
structure RingInv (st : Oracle) : Prop where
  stored_le : st.observations_stored ≤ st.observations_limit
  empty_iff : st.observations_stored = 0 ↔ st.last_observation_index = none
  none_sub : st.sub_observations = none → st.last_observation_index = none
  last_lt : ∀ li, st.last_observation_index = some li → li < st.observations_stored
  not_full : ∀ li, st.last_observation_index = some li →
    st.observations_stored < st.observations_limit →
    li + 1 = st.observations_stored
  adj : ∀ li, st.last_observation_index = some li →
    ∀ i, i + 1 < st.observations_stored →
    (st.observations ((li + 1 + i) % st.observations_stored)).timestamp <
      (st.observations ((li + 1 + i + 1) % st.observations_stored)).timestamp
  coupled : ∀ li, st.last_observation_index = some li →
    ∀ s, st.sub_observations = some s →
    (st.observations li).timestamp ≤ s.last_updated / 60

/-- Conclusion of claim C4: the state invariants of spec section 3 —
stored count bounded by the capacity, emptiness characterised by the
missing index, `oldest_index = (last_observation_index + 1) mod
observations_stored`, and strictly increasing timestamps along the ring
walk of `observations_stored` slots starting at `oldest_index`. -/
def RingWalkSpec (st : Oracle) : Prop :=
  st.observations_stored ≤ st.observations_limit ∧
  (st.observations_stored = 0 ↔ st.last_observation_index = none) ∧
  (∀ li, st.last_observation_index = some li →
    oldest_index st = some ((li + 1) % st.observations_stored)) ∧
  (∀ oi, oldest_index st = some oi → ∀ i j, i < j → j < st.observations_stored →
    (st.observations ((oi + i) % st.observations_stored)).timestamp <
      (st.observations ((oi + j) % st.observations_stored)).timestamp)

/-- After any `new_subobservation` call at instant `now`, the accumulator's
`last_updated` equals `now` (either the guard updated it, or it was already
equal). -/
theorem newsub_last_updated (s : SubObservations) (now : ℕ) (p : PDec) :
    (new_subobservation s now p).last_updated = now := by
  unfold new_subobservation
  by_cases h : now = s.last_updated
  · simp [h]
  · simp [h]

/-- Two `new_subobservation` calls at the same instant collapse to the
second one: the first call's only surviving effect is `price_sqrt_last`,
which the second call overwrites, and the second call performs no
accumulation because no time has elapsed. -/
theorem newsub_newsub (s : SubObservations) (t : ℕ) (p q : PDec) :
    new_subobservation (new_subobservation s t p) t q = new_subobservation s t q := by
  unfold new_subobservation
  by_cases h : t = s.last_updated <;> simp [h]

/-- C1: for every accumulator value `acc`, finalized average `f`, last
price `l`, and minute count `n ≥ 1` on which `ln` is defined,
`accumulated_log acc f l n = acc + floor_ln f + (n - 1) * floor_ln l`,
with the `(n - 1)` factor taken in ℤ (the u64 subtraction does not
underflow because `n ≥ 1`). -/
theorem c1_accumulated_log (L : NumLib) (acc : Dec) (f l : PDec) (n : ℕ)
    (hn : 1 ≤ n) (lf ll : Dec)
    (hf : floor_ln L f = some lf) (hl : floor_ln L l = some ll) :
    accumulated_log L acc f l n = some (acc + lf + ((n : ℤ) - 1) * ll) := by
  unfold accumulated_log
  rw [hf, hl]
  have hcast : ((n - 1 : ℕ) : ℤ) = (n : ℤ) - 1 := by omega
  rw [hcast]

/-- Witness for C1 at `acc = 5`, `f = 7`, `l = 9`, `n = 3`. -/
theorem c1_accumulated_log_witness :
    (1 ≤ 3 ∧ floor_ln numLib0 7 = some 0 ∧ floor_ln numLib0 9 = some 0) ∧
    accumulated_log numLib0 5 7 9 3 = some (5 + 0 + ((3 : ℤ) - 1) * 0) :=
  ⟨⟨by decide, by decide, by decide⟩,
   c1_accumulated_log numLib0 5 7 9 3 (by decide) 0 0 (by decide) (by decide)⟩

/-- C5: `finalize` returns
`(price_sqrt_sum + price_sqrt_last * (60 - last_updated.seconds_marginal())) / duration`
with `duration = 60 - initialization.seconds_marginal()` when the
initialization instant is present and `60` otherwise; afterwards the
initialization is cleared, the sum is zero, `last_updated` is the current
instant rounded down to the minute boundary, and `price_sqrt_last` is
unchanged. -/
theorem c5_finalize (s : SubObservations) (now : ℕ) :
    (finalize s now).1 =
      pdecDiv (s.price_sqrt_sum +
          s.price_sqrt_last * ((60 - secondsMarginal s.last_updated : ℕ) : ℤ))
        (match s.initialization with
         | some instant => 60 - secondsMarginal instant
         | none => 60)
    ∧ (finalize s now).2.initialization = none
    ∧ (finalize s now).2.price_sqrt_sum = 0
    ∧ (finalize s now).2.last_updated = now / 60 * 60
    ∧ (finalize s now).2.price_sqrt_last = s.price_sqrt_last := by
  cases h : s.initialization <;>
    simp [finalize, price_sqrt_average, h]

/-- C6: a non-empty burst of `new_subobservation` calls at the exact same
instant leaves the accumulator in the same state as the single call with
the burst's final price, so the observation eventually emitted for that
minute is identical either way. -/
theorem c6_same_instant_replays (s : SubObservations) (t : ℕ) (ps : List PDec)
    (h : ps ≠ []) :
    ps.foldl (fun acc p => new_subobservation acc t p) s =
      new_subobservation s t (ps.getLast h) := by
  induction ps generalizing s with
  | nil => exact absurd rfl h
  | cons p rest ih =>
    cases rest with
    | nil => simp [List.foldl]
    | cons q rest2 =>
      rw [List.foldl_cons, ih (new_subobservation s t p) (by simp), newsub_newsub]
      exact rfl

/-- Witness for C6: a three-price burst at second 100. -/
theorem c6_same_instant_replays_witness :
    (([2, 3, 4] : List PDec) ≠ []) ∧
    ([2, 3, 4] : List PDec).foldl
        (fun acc p => new_subobservation acc 100 p) ⟨0, 5, 40, none⟩ =
      new_subobservation ⟨0, 5, 40, none⟩ 100
        (([2, 3, 4] : List PDec).getLast (by decide)) :=
  ⟨by decide, c6_same_instant_replays ⟨0, 5, 40, none⟩ 100 [2, 3, 4] (by decide)⟩

/-- Specification of the binary-search loop.  Under the strict ring-order
monotonicity of the virtual index range `[oldest, oldest + stored)` and the
loop invariant `ts(left) ≤ target < ts(right)`, the loop returns within
`right - left < fuel` steps, an `inl` result is an exact stored hit, and an
`inr` result is an adjacent stored pair strictly bracketing the target. -/
theorem binary_search_loop_spec (obs : ℕ → AccumulatedObservation)
    (stored target oldest : ℕ) :
    ∀ fuel left right, oldest ≤ left → left ≤ right → right < oldest + stored →
      right ≤ 32767 →
      right - left < fuel →
      (obs (left % stored)).timestamp ≤ target →
      target < (obs (right % stored)).timestamp →
      ∃ res, binary_search_loop obs stored target fuel left right = some res ∧
        (∀ o, res = Sum.inl o → o.timestamp = target ∧
          ∃ v, oldest ≤ v ∧ v < oldest + stored ∧ o = obs (v % stored)) ∧
        (∀ m r, res = Sum.inr (m, r) → ∃ k, oldest ≤ k ∧ k + 1 < oldest + stored ∧
          m = obs (k % stored) ∧ r = obs ((k + 1) % stored) ∧
          m.timestamp < target ∧ target < r.timestamp) := by
  intro fuel
  induction fuel with
  | zero => intro left right _ _ _ _ hfuel _ _; omega
  | succ fuel ih =>
    intro left right hol hlr hro hbr hfuel hlts hrts
    have hmid1 : left ≤ (left + right) / 2 := by omega
    have hmid2 : (left + right) / 2 ≤ right := by omega
    have hov : left + right < 65536 := by omega
    by_cases h1 : (obs ((left + right) / 2 % stored)).timestamp = target
    · refine ⟨Sum.inl (obs ((left + right) / 2 % stored)), ?_, ?_, ?_⟩
      · simp [binary_search_loop, h1, hov]
      · intro o ho
        injection ho with ho
        subst ho
        exact ⟨h1, (left + right) / 2, by omega, by omega, rfl⟩
      · intro m r hmr; simp at hmr
    · by_cases h2 : (left + right) / 2 = left
      · rw [h2] at h1
        have hne : right ≠ left := by
          intro he
          rw [he] at hrts
          omega
        have hr2 : right = left + 1 := by omega
        by_cases h3 : (obs (right % stored)).timestamp = target
        · refine ⟨Sum.inl (obs (right % stored)), ?_, ?_, ?_⟩
          · simp [binary_search_loop, h1, h2, h3, hov]
          · intro o ho
            injection ho with ho
            subst ho
            exact ⟨h3, right, by omega, hro, rfl⟩
          · intro m r hmr; simp at hmr
        · refine ⟨Sum.inr (obs (left % stored), obs (right % stored)), ?_, ?_, ?_⟩
          · simp [binary_search_loop, h1, h2, h3, hov]
          · intro o ho; simp at ho
          · intro m r hmr
            injection hmr with hmr
            injection hmr with hm hr
            subst hm; subst hr
            refine ⟨left, hol, by omega, rfl, by rw [hr2], by omega, hrts⟩
      · by_cases h4 : (obs ((left + right) / 2 % stored)).timestamp < target
        · obtain ⟨res, heq, hinl, hinr⟩ :=
            ih ((left + right) / 2) right (by omega) hmid2 hro hbr (by omega)
              (le_of_lt h4) hrts
          refine ⟨res, ?_, hinl, hinr⟩
          simpa [binary_search_loop, h1, h2, h4, hov] using heq
        · have h5 : target < (obs ((left + right) / 2 % stored)).timestamp := by omega
          have h6 : (left + right) / 2 < right := by omega
          obtain ⟨res, heq, hinl, hinr⟩ :=
            ih left ((left + right) / 2) hol hmid1 (by omega) (by omega) (by omega) hlts h5
          refine ⟨res, ?_, hinl, hinr⟩
          simpa [binary_search_loop, h1, h2, h4, hov] using heq

/-- The binary-search loop reads the observation store only at physical
slots below `observations_stored` (every access is through
`virtual index % observations_stored`). -/
theorem binary_search_loop_congr (f g : ℕ → AccumulatedObservation)
    (stored target : ℕ) (hst : 0 < stored) (hfg : ∀ j, j < stored → f j = g j) :
    ∀ fuel left right, binary_search_loop f stored target fuel left right =
      binary_search_loop g stored target fuel left right := by
  intro fuel
  induction fuel with
  | zero => intro left right; rfl
  | succ fuel ih =>
    intro left right
    have e1 : f ((left + right) / 2 % stored) = g ((left + right) / 2 % stored) :=
      hfg _ (Nat.mod_lt _ hst)
    have e2 : f (right % stored) = g (right % stored) := hfg _ (Nat.mod_lt _ hst)
    simp only [binary_search_loop, e1, e2, ih]

/-- C2 (amended): on a ring whose timestamps are strictly increasing
along the virtual index range `[oldest, oldest + stored)` and a target
between the oldest and (strictly below) the newest stored timestamp,
provided the virtual index range stays within u16 arithmetic
(`oldest + stored ≤ 32768`; otherwise the u16 additions computing
`right = left + stored - 1` and `mid = (left + right) / 2` can overflow
and abort the call — see the counterexample),
`binary_search_and_interpolation` satisfies `BinarySearchSpec`: it
terminates, returns the exact stored observation when one matches, and
otherwise interpolates over the adjacent bracketing pair — touching the
store only through `virtual index mod stored`. -/
theorem c2_binary_search (obs : ℕ → AccumulatedObservation)
    (oldest stored target : ℕ) (hst : 1 ≤ stored)
    (hsafe : oldest + stored ≤ 32768)
    (hmono : ∀ v, v < oldest + stored → ∀ u, u < v → oldest ≤ u →
      (obs (u % stored)).timestamp < (obs (v % stored)).timestamp)
    (hlo : (obs (oldest % stored)).timestamp ≤ target)
    (hhi : target < (obs ((oldest + stored - 1) % stored)).timestamp) :
    BinarySearchSpec obs oldest stored target := by
  have hguard : ¬ (2 ^ 16 ≤ oldest + stored ∨ oldest + stored = 0) := by omega
  obtain ⟨res, heq, hinl, hinr⟩ :=
    binary_search_loop_spec obs stored target oldest stored oldest
      (oldest + stored - 1) le_rfl (by omega) (by omega) (by omega) (by omega) hlo hhi
  constructor
  · match res, heq with
    | Sum.inl o, heq =>
      obtain ⟨hts, v, hv1, hv2, hv3⟩ := hinl o rfl
      refine ⟨o, ?_, hts, Or.inl ⟨v, hv1, hv2, hv3, by rw [← hv3]; exact hts⟩⟩
      simp only [binary_search_and_interpolation]
      rw [if_neg hguard, heq]
    | Sum.inr (m, r), heq =>
      obtain ⟨k, hk1, hk2, hm, hr, hmt, hrt⟩ := hinr m r rfl
      refine ⟨{ timestamp := target
                price_sqrt_log_acc :=
                  linear_interpolation m.timestamp r.timestamp
                    m.price_sqrt_log_acc r.price_sqrt_log_acc target },
        ?_, rfl, Or.inr ⟨?_, k, hk1, hk2, ?_, ?_, ?_⟩⟩
      · simp only [binary_search_and_interpolation]
        rw [if_neg hguard, heq]
      · intro v hv1 hv2 hveq
        rcases Nat.lt_or_ge v (k + 1) with hvk | hvk
        · rcases Nat.lt_or_ge v k with hvk2 | hvk2
          · have := hmono k (by omega) v hvk2 hv1
            rw [← hm] at this
            omega
          · have hvkk : v = k := by omega
            rw [hvkk, ← hm] at hveq
            omega
        · rcases Nat.lt_or_ge (k + 1) v with hvk2 | hvk2
          · have := hmono v hv2 (k + 1) hvk2 (by omega)
            rw [← hr] at this
            omega
          · have hvkk : v = k + 1 := by omega
            rw [hvkk, ← hr] at hveq
            omega
      · rw [← hm]; exact hmt
      · rw [← hr]; exact hrt
      · rw [← hm, ← hr]
  · intro g hfg
    simp only [binary_search_and_interpolation]
    rw [binary_search_loop_congr obs g stored target (by omega) hfg]

/-- Witness for C2: ring of three observations, target minute 15 strictly
between two stored timestamps. -/
theorem c2_binary_search_witness : BinarySearchSpec obsW 1 3 15 :=
  c2_binary_search obsW 1 3 15 (by decide) (by decide)
    (by decide) (by decide) (by decide)

/-- Counterexample to C2 as stated: the ring `obsBig` with 32769 stored
observations and oldest index 32768 satisfies the section-3 invariants
(strictly increasing ring-walk timestamps, `oldest < stored ≤ 65535`),
and minute 105 lies strictly between the oldest (100) and newest (327780)
stored timestamps — yet the u16 addition `left + observations_stored`
computing `right` reaches 65537 and overflows, so the call aborts instead
of returning the claimed interpolation. -/
theorem c2_counterexample :
    (1 ≤ 32769 ∧
     (∀ v, v < 32768 + 32769 → ∀ u, u < v → 32768 ≤ u →
        (obsBig (u % 32769)).timestamp < (obsBig (v % 32769)).timestamp) ∧
     (obsBig (32768 % 32769)).timestamp ≤ 105 ∧
     105 < (obsBig ((32768 + 32769 - 1) % 32769)).timestamp) ∧
    binary_search_and_interpolation obsBig 32768 32769 105 =
      .error .internalFailure ∧
    (∀ o, binary_search_and_interpolation obsBig 32768 32769 105 ≠ .ok o) := by
  have herr : binary_search_and_interpolation obsBig 32768 32769 105 =
      .error .internalFailure := by
    simp only [binary_search_and_interpolation]
    rw [if_pos (by omega)]
  refine ⟨⟨by omega, ?_, by decide, by decide⟩, herr, fun o h => ?_⟩
  · intro v hv u huv hu
    simp only [obsBig]
    omega
  · rw [herr] at h
    cases h

/-- An exact (`inl`) result of the binary-search loop always carries the
target timestamp: both return sites first check the timestamp. -/
theorem binary_search_loop_inl_timestamp (obs : ℕ → AccumulatedObservation)
    (stored target : ℕ) :
    ∀ fuel left right o,
      binary_search_loop obs stored target fuel left right = some (Sum.inl o) →
      o.timestamp = target := by
  intro fuel
  induction fuel with
  | zero => intro l r o h; simp [binary_search_loop] at h
  | succ fuel ih =>
    intro l r o h
    simp only [binary_search_loop] at h
    split_ifs at h with h0 h1 h2 h3 h4
    · simp only [Option.some.injEq, Sum.inl.injEq] at h
      rw [← h]; exact h1
    · simp only [Option.some.injEq, Sum.inl.injEq] at h
      rw [← h]; exact h3
    · simp at h
    · exact ih _ _ _ h
    · exact ih _ _ _ h

/-- Every `ok` result of `binary_search_and_interpolation` carries the
target timestamp. -/
theorem binary_search_ok_timestamp (obs : ℕ → AccumulatedObservation)
    (oi stored target : ℕ) (o : AccumulatedObservation)
    (h : binary_search_and_interpolation obs oi stored target = .ok o) :
    o.timestamp = target := by
  simp only [binary_search_and_interpolation] at h
  split at h
  · cases h
  · cases hloop : binary_search_loop obs stored target stored oi (oi + stored - 1) with
    | none => rw [hloop] at h; cases h
    | some res =>
      rw [hloop] at h
      match res, h with
      | Sum.inl o2, h =>
        cases h
        exact binary_search_loop_inl_timestamp obs stored target _ _ _ _ hloop
      | Sum.inr (m, r), h =>
        cases h
        rfl

/-- The only error `binary_search_and_interpolation` can produce is the
internal one (u16 overflow or fuel exhaustion). -/
theorem binary_search_error_internal (obs : ℕ → AccumulatedObservation)
    (oi stored target : ℕ) (e : OErr)
    (h : binary_search_and_interpolation obs oi stored target = .error e) :
    e = .internalFailure := by
  simp only [binary_search_and_interpolation] at h
  split at h
  · cases h; rfl
  · cases hloop : binary_search_loop obs stored target stored oi (oi + stored - 1) with
    | none => rw [hloop] at h; cases h; rfl
    | some res =>
      rw [hloop] at h
      match res, h with
      | Sum.inl o2, h => cases h
      | Sum.inr (m, r), h => cases h

/-- Every `ok` result of `observation_internal` carries the target minute
as its timestamp (exact hits match it, extrapolation and interpolation
construct it). -/
theorem observation_internal_ok_timestamp (L : NumLib) (st : Oracle)
    (now target : ℕ) (o : AccumulatedObservation)
    (h : observation_internal L st now target = .ok o) :
    o.timestamp = target := by
  simp only [observation_internal] at h
  split at h
  · cases h
  · split at h
    · cases h
    · split at h
      · cases h
      · split at h
        · rename_i he
          cases h
          exact he.symm
        · split at h
          · cases h
          · split at h
            · split at h
              · cases h
              · split at h
                · cases h
                · cases h
                  rfl
            · split at h
              · cases h
              · exact binary_search_ok_timestamp st.observations _
                  st.observations_stored target o h

/-- C3: a successful `observation(seconds)` always returns the timestamp
`(seconds / 60) * 60`; when the target minute equals the newest stored
timestamp the stored log accumulator is returned unchanged; when the
target minute lies strictly after the newest stored timestamp (and at or
before now) the log accumulator is
`accumulated_log(last.log_acc, finalize_preview(), price_sqrt_last,
target - last.timestamp)`. -/
theorem c3_observation (L : NumLib) (st : Oracle) (now seconds : ℕ)
    (li ots : ℕ) (s : SubObservations)
    (hli : st.last_observation_index = some li)
    (hots : oldest_observation_timestamp_minutes st = some ots)
    (hsub : st.sub_observations = some s)
    (hlo : ots ≤ seconds / 60) (hhi : seconds / 60 ≤ now / 60) :
    (∀ o, observation L st now seconds = .ok o → o.timestamp = seconds / 60 * 60)
    ∧ ((st.observations li).timestamp = seconds / 60 →
        observation L st now seconds =
          .ok { timestamp := seconds / 60 * 60
                price_sqrt_log_acc := (st.observations li).price_sqrt_log_acc })
    ∧ (∀ preview v, (st.observations li).timestamp < seconds / 60 →
        finalize_preview s = .ok preview →
        accumulated_log L (st.observations li).price_sqrt_log_acc preview
          s.price_sqrt_last (seconds / 60 - (st.observations li).timestamp) = some v →
        observation L st now seconds =
          .ok { timestamp := seconds / 60 * 60, price_sqrt_log_acc := v }) := by
  refine ⟨?_, ?_, ?_⟩
  · intro o h
    simp only [observation, Except.map] at h
    split at h
    · cases h
    · rename_i o2 hint
      cases h
      simp [observation_internal_ok_timestamp L st now (seconds / 60) o2 hint]
  · intro heq
    simp only [observation, observation_internal, hots, hli]
    rw [if_neg (not_not_intro ⟨hlo, hhi⟩), if_pos heq.symm]
    simp [Except.map, heq]
  · intro preview v hgt hprev hacc
    simp only [observation, observation_internal, hots, hli, hsub]
    rw [if_neg (not_not_intro ⟨hlo, hhi⟩),
      if_neg (by omega : ¬ seconds / 60 = (st.observations li).timestamp),
      if_pos hgt]
    simp only [hprev, hacc, Except.map]

/-- Witness for C3 at the extrapolation configuration: query second 720
(minute 12) on `oracle3` at now = second 900. -/
theorem c3_observation_witness :
    (oracle3.last_observation_index = some 0 ∧
     oldest_observation_timestamp_minutes oracle3 = some 10 ∧
     oracle3.sub_observations = some ⟨0, 5, 660, none⟩ ∧
     10 ≤ 720 / 60 ∧ 720 / 60 ≤ 900 / 60) ∧
    ((∀ o, observation numLib0 oracle3 900 720 = .ok o → o.timestamp = 720 / 60 * 60)
     ∧ ((oracle3.observations 0).timestamp = 720 / 60 →
         observation numLib0 oracle3 900 720 =
           .ok { timestamp := 720 / 60 * 60
                 price_sqrt_log_acc := (oracle3.observations 0).price_sqrt_log_acc })
     ∧ (∀ preview v, (oracle3.observations 0).timestamp < 720 / 60 →
         finalize_preview (⟨0, 5, 660, none⟩ : SubObservations) = .ok preview →
         accumulated_log numLib0 (oracle3.observations 0).price_sqrt_log_acc preview
           (⟨0, 5, 660, none⟩ : SubObservations).price_sqrt_last
           (720 / 60 - (oracle3.observations 0).timestamp) = some v →
         observation numLib0 oracle3 900 720 =
           .ok { timestamp := 720 / 60 * 60, price_sqrt_log_acc := v })) :=
  ⟨⟨rfl, by decide, rfl, by decide, by decide⟩,
   c3_observation numLib0 oracle3 900 720 0 10 ⟨0, 5, 660, none⟩ rfl (by decide) rfl
     (by decide) (by decide)⟩

/-- On a non-empty oracle with an in-range target minute, the only errors
`observation_internal` can produce are the internal (unwrap/loop) one and
the preview assertion: the two range failures are impossible. -/
theorem observation_internal_in_range_errors (L : NumLib) (st : Oracle)
    (now target ots : ℕ)
    (hots : oldest_observation_timestamp_minutes st = some ots)
    (hlo : ots ≤ target) (hhi : target ≤ now / 60) (e : OErr)
    (h : observation_internal L st now target = .error e) :
    e = .internalFailure ∨ e = .previewBeforeFinalize := by
  simp only [observation_internal, hots] at h
  rw [if_neg (not_not_intro ⟨hlo, hhi⟩)] at h
  split at h
  · cases h; exact Or.inl rfl
  · split at h
    · cases h
    · split at h
      · cases h; exact Or.inl rfl
      · split at h
        · split at h
          · rename_i e2 hprev
            cases h
            refine Or.inr ?_
            simp only [finalize_preview] at hprev
            split at hprev
            · cases hprev; rfl
            · cases hprev
          · split at h
            · cases h; exact Or.inl rfl
            · cases h
        · split at h
          · cases h; exact Or.inl rfl
          · exact Or.inl (binary_search_error_internal st.observations _
              st.observations_stored target e h)

/-- Counterexample to C8 as stated: with `observations_stored == 0`,
`observation_intervals` on the empty pair list returns `ok []` without
failing, so "observation_intervals fails fatally when observations_stored
== 0" does not hold unconditionally — only the per-pair endpoint queries
fail. -/
theorem c8_counterexample :
    (Oracle.new 4).observations_stored = 0 ∧
    observation_intervals numLib0 (Oracle.new 4) 900 [] = .ok [] :=
  ⟨rfl, rfl⟩

/-- C8 (amended): `observation_internal` fails with
`QueryBeforeAnyObservation` when no observation is stored and with
`TimestampOutOfRange` when the target minute is below the oldest stored
timestamp or above the current minute, and produces neither failure for
an in-range target on a non-empty oracle; `observation` inherits the
empty-oracle failure; `observation_intervals` propagates those endpoint
failures for every pair it processes (an empty pair list succeeds
vacuously), and never produces either failure when every pair's endpoints
are in range on a non-empty oracle. -/
theorem c8_observation_errors (L : NumLib) (st : Oracle) (now target : ℕ)
    (hinv : st.observations_stored = 0 ↔ st.last_observation_index = none) :
    ObservationErrorSpec L st now target := by
  have hempty : st.observations_stored = 0 → ∀ tgt,
      observation_internal L st now tgt = .error .queryBeforeAnyObservation := by
    intro h0 tgt
    have hnone : st.last_observation_index = none := hinv.mp h0
    simp [observation_internal, oldest_observation_timestamp_minutes, oldest_index, hnone]
  refine ⟨fun h0 => hempty h0 target, ?_, ?_, ?_, ?_, ?_, ?_⟩
  · intro h0 seconds
    simp [observation, hempty h0 (seconds / 60), Except.map]
  · intro ots hots hout
    simp only [observation_internal, hots]
    rw [if_pos]
    omega
  · intro ots hots hlo hhi
    constructor
    · intro hbad
      rcases observation_internal_in_range_errors L st now target ots hots hlo hhi
        _ hbad with h | h <;> cases h
    · intro hbad
      rcases observation_internal_in_range_errors L st now target ots hots hlo hhi
        _ hbad with h | h <;> cases h
  · intro a b rest e hab hl
    simp only [observation_intervals]
    rw [if_neg (by omega)]
    simp only [hl]
  · intro a b rest o_l e hab hl hr
    simp only [observation_intervals]
    rw [if_neg (by omega)]
    simp only [hl, hr]
  · intro ots hots pairs
    induction pairs with
    | nil =>
      intro _
      exact ⟨by simp [observation_intervals], by simp [observation_intervals]⟩
    | cons ab rest ih =>
      intro hall
      obtain ⟨a, b⟩ := ab
      have hcond := hall (a, b) (List.mem_cons_self _ _)
      have hrest := ih (fun ab hab => hall ab (List.mem_cons_of_mem _ hab))
      have key : ∀ e2, observation_intervals L st now ((a, b) :: rest) = .error e2 →
          observation_intervals L st now rest = .error e2 ∨
          observation_internal L st now (a / 60) = .error e2 ∨
          observation_internal L st now (b / 60) = .error e2 ∨
          e2 = .internalFailure := by
        intro e2 hbad
        simp only [observation_intervals] at hbad
        rw [if_neg (by omega)] at hbad
        split at hbad
        · rename_i e3 heq
          cases hbad
          exact Or.inr (Or.inl heq)
        · split at hbad
          · rename_i e3 heq
            cases hbad
            exact Or.inr (Or.inr (Or.inl heq))
          · split at hbad
            · cases hbad
              exact Or.inr (Or.inr (Or.inr rfl))
            · split at hbad
              · rename_i e3 heq
                cases hbad
                exact Or.inl heq
              · cases hbad
      refine ⟨fun hbad => ?_, fun hbad => ?_⟩
      · rcases key _ hbad with h | h | h | h
        · exact hrest.1 h
        · rcases observation_internal_in_range_errors L st now (a / 60) ots hots
            hcond.2.1 hcond.2.2.1 _ h with h2 | h2 <;> cases h2
        · rcases observation_internal_in_range_errors L st now (b / 60) ots hots
            hcond.2.2.2.1 hcond.2.2.2.2 _ h with h2 | h2 <;> cases h2
        · cases h
      · rcases key _ hbad with h | h | h | h
        · exact hrest.2 h
        · rcases observation_internal_in_range_errors L st now (a / 60) ots hots
            hcond.2.1 hcond.2.2.1 _ h with h2 | h2 <;> cases h2
        · rcases observation_internal_in_range_errors L st now (b / 60) ots hots
            hcond.2.2.2.1 hcond.2.2.2.2 _ h with h2 | h2 <;> cases h2
        · cases h

/-- Witness for C8 (amended) on `oracle3`: target minute 11 is inside the
range `[10, 15]` of a one-slot oracle. -/
theorem c8_observation_errors_witness :
    (oracle3.observations_stored = 0 ↔ oracle3.last_observation_index = none) ∧
    ObservationErrorSpec numLib0 oracle3 900 11 :=
  ⟨by decide, c8_observation_errors numLib0 oracle3 900 11 (by decide)⟩

/-- Counterexample to C7 as stated: the pair `(0, 120)` floors to minutes
`0 < 2`, so by the claim the call should not fail — but on an oracle whose
oldest stored minute is 10 the left endpoint query fails with
`TimestampOutOfRange`, so `observation_intervals` does fail on a pair with
`a_sec/60 < b_sec/60`. -/
theorem c7_counterexample :
    0 / 60 < 120 / 60 ∧
    observation_intervals numLib0 oracle3 900 [(0, 120)] =
      .error .timestampOutOfRange := by
  constructor
  · decide
  · decide

/-- C7 (amended): `observation_intervals` fails with `EmptyInterval`
whenever a pair floors to `a_min ≥ b_min`; for a pair with
`a_min < b_min` whose two endpoint queries succeed (they may themselves
fail, which also fails the call) and whose `exp` is defined, the produced
entry has `start = a_min * 60`, `end = b_min * 60` and
`price_sqrt = exp((o_r.log_acc - o_l.log_acc) / (b_min - a_min))`. -/
theorem c7_observation_intervals (L : NumLib) (st : Oracle) (now : ℕ)
    (a b : ℕ) (rest : List (ℕ × ℕ)) :
    (b / 60 ≤ a / 60 →
      observation_intervals L st now ((a, b) :: rest) = .error .emptyInterval)
    ∧ (∀ o_l o_r g, a / 60 < b / 60 →
        observation_internal L st now (a / 60) = .ok o_l →
        observation_internal L st now (b / 60) = .ok o_r →
        geometric_mean L (a / 60) (b / 60) o_l.price_sqrt_log_acc
          o_r.price_sqrt_log_acc = some g →
        observation_intervals L st now ((a, b) :: rest) =
          (observation_intervals L st now rest).map
            (fun avgs =>
              { start := a / 60 * 60, end_ := b / 60 * 60, price_sqrt := g } :: avgs)) := by
  constructor
  · intro hab
    simp only [observation_intervals]
    rw [if_pos (by omega)]
  · intro o_l o_r g hab hl hr hg
    simp only [observation_intervals]
    rw [if_neg (by omega)]
    simp only [hl, hr, hg]
    cases hrest : observation_intervals L st now rest with
    | error e => simp [Except.map]
    | ok avgs => simp [Except.map]

/-- Witness for C7 (amended) on `oracle3`: interval `[660, 720]` spans
minutes 11 to 12, both endpoints resolve by extrapolation. -/
theorem c7_observation_intervals_witness :
    (660 / 60 < 720 / 60 ∧
     observation_internal numLib0 oracle3 900 (660 / 60) = .ok ⟨11, 100⟩ ∧
     observation_internal numLib0 oracle3 900 (720 / 60) = .ok ⟨12, 100⟩ ∧
     geometric_mean numLib0 (660 / 60) (720 / 60) (100 : Dec) (100 : Dec) = some 0) ∧
    observation_intervals numLib0 oracle3 900 [(660, 720)] =
      (observation_intervals numLib0 oracle3 900 []).map
        (fun avgs =>
          { start := 660 / 60 * 60, end_ := 720 / 60 * 60, price_sqrt := 0 } :: avgs) :=
  ⟨⟨by decide, by decide, by decide, by decide⟩,
   (c7_observation_intervals numLib0 oracle3 900 660 720 []).2 ⟨11, 100⟩ ⟨12, 100⟩ 0
     (by decide) (by decide) (by decide) (by decide)⟩

/-- C10: at the `create_observation` call site `minutes_since_last` is at
least 1 (the branch is only taken when the current minute differs from the
sub-accumulator's minute, and clock readings never decrease), and at the
extrapolation call site `target - last.timestamp` is at least 1 (the
branch requires `last.timestamp < target`); hence the u64 subtractions
producing the arguments and the `minutes_since_last - 1` inside
`accumulated_log` never underflow (natural and integer subtraction
agree). -/
theorem c10_minutes_since_last (s : SubObservations) (now lastTs target : ℕ)
    (hmono : s.last_updated ≤ now) (hdiff : now / 60 ≠ s.last_updated / 60)
    (hgt : lastTs < target) :
    (1 ≤ minutesSinceLast s now ∧
      ((minutesSinceLast s now - 1 : ℕ) : ℤ) = (minutesSinceLast s now : ℤ) - 1 ∧
      ((minutesSinceLast s now : ℕ) : ℤ) = (now / 60 : ℤ) - (s.last_updated / 60 : ℤ))
    ∧ (1 ≤ target - lastTs ∧
      ((target - lastTs : ℕ) : ℤ) = (target : ℤ) - (lastTs : ℤ) ∧
      ((target - lastTs - 1 : ℕ) : ℤ) = (target : ℤ) - (lastTs : ℤ) - 1) := by
  unfold minutesSinceLast
  have hdivle : s.last_updated / 60 ≤ now / 60 := Nat.div_le_div_right hmono
  exact ⟨⟨by omega, by omega, by omega⟩, ⟨by omega, by omega, by omega⟩⟩

/-- Witness for C10: sub-accumulator last updated at second 70, current
second 130; stored timestamp 10, target minute 12. -/
theorem c10_minutes_since_last_witness :
    ((⟨0, 0, 70, none⟩ : SubObservations).last_updated ≤ 130 ∧
      130 / 60 ≠ (⟨0, 0, 70, none⟩ : SubObservations).last_updated / 60 ∧
      10 < 12) ∧
    ((1 ≤ minutesSinceLast ⟨0, 0, 70, none⟩ 130 ∧
      ((minutesSinceLast ⟨0, 0, 70, none⟩ 130 - 1 : ℕ) : ℤ) =
        (minutesSinceLast ⟨0, 0, 70, none⟩ 130 : ℤ) - 1 ∧
      ((minutesSinceLast ⟨0, 0, 70, none⟩ 130 : ℕ) : ℤ) =
        (130 / 60 : ℤ) - ((⟨0, 0, 70, none⟩ : SubObservations).last_updated / 60 : ℤ))
     ∧ (1 ≤ 12 - 10 ∧
      ((12 - 10 : ℕ) : ℤ) = (12 : ℤ) - (10 : ℤ) ∧
      ((12 - 10 - 1 : ℕ) : ℤ) = (12 : ℤ) - (10 : ℤ) - 1)) :=
  ⟨⟨by decide, by decide, by decide⟩,
   c10_minutes_since_last ⟨0, 0, 70, none⟩ 130 10 12 (by decide) (by decide) (by decide)⟩

/-- Adding a nonzero offset strictly below the modulus moves the residue. -/
theorem mod_add_cancel_ne (Lm a d : ℕ) (hd1 : 0 < d) (hd2 : d < Lm) :
    (a + d) % Lm ≠ a % Lm := by
  intro h
  have h1 : a + d ≡ a + 0 [MOD Lm] := by
    simpa using (h : Nat.ModEq Lm (a + d) a)
  have h2 : d ≡ 0 [MOD Lm] := Nat.ModEq.add_left_cancel' a h1
  have h3 : Lm ∣ d := (Nat.modEq_zero_iff_dvd).mp h2
  have h4 : Lm ≤ d := Nat.le_of_dvd hd1 h3
  omega

/-- A sequence that rises on each adjacent pair below `n` rises on every
pair of positions below `n`. -/
theorem strict_of_adjacent (g : ℕ → ℕ) (n : ℕ)
    (h : ∀ i, i + 1 < n → g i < g (i + 1)) :
    ∀ i j, i < j → j < n → g i < g j := by
  intro i j hij hj
  induction j with
  | zero => omega
  | succ j ih =>
    rcases Nat.lt_or_ge i j with h2 | h2
    · exact lt_trans (ih h2 (by omega)) (h j (by omega))
    · have hji : i = j := by omega
      subst hji
      exact h i (by omega)

/-- The observation built by `create_observation` is timestamped at the
current minute. -/
theorem create_observation_timestamp (L : NumLib) (st : Oracle) (now : ℕ)
    (o : AccumulatedObservation) (sub2 : SubObservations)
    (h : create_observation L st now = some (o, sub2)) :
    o.timestamp = now / 60 := by
  simp only [create_observation] at h
  split at h
  · cases h
  · split at h
    · rcases Option.map_eq_some'.mp h with ⟨v, hv, hf⟩
      injection hf with hf1 hf2
      rw [← hf1]
    · split at h
      · cases h
      · rcases Option.map_eq_some'.mp h with ⟨v, hv, hf⟩
        injection hf with hf1 hf2
        rw [← hf1]

/-- Inserting an observation that is strictly newer than the current
newest one preserves the ring invariant, both before the ring is full
(the new slot extends the walk) and after (the new slot overwrites the
oldest walk position). -/
theorem insert_inv (st : Oracle) (o : AccumulatedObservation) (s2 : SubObservations)
    (hlim : 1 ≤ st.observations_limit)
    (hse : st.observations_stored ≤ st.observations_limit)
    (hiff : st.observations_stored = 0 ↔ st.last_observation_index = none)
    (hll : ∀ li, st.last_observation_index = some li → li < st.observations_stored)
    (hnf : ∀ li, st.last_observation_index = some li →
      st.observations_stored < st.observations_limit → li + 1 = st.observations_stored)
    (hadj : ∀ li, st.last_observation_index = some li →
      ∀ i, i + 1 < st.observations_stored →
      (st.observations ((li + 1 + i) % st.observations_stored)).timestamp <
        (st.observations ((li + 1 + i + 1) % st.observations_stored)).timestamp)
    (hnew : ∀ li, st.last_observation_index = some li →
      (st.observations li).timestamp < o.timestamp)
    (hcpl : o.timestamp ≤ s2.last_updated / 60) :
    RingInv { insert_observation st o with sub_observations := some s2 } := by
  cases hli : st.last_observation_index with
  | none =>
    have h0 : st.observations_stored = 0 := hiff.mpr hli
    have hA : ({ insert_observation st o with sub_observations := some s2 } : Oracle) =
        { st with
          observations := Function.update st.observations 0 o
          last_observation_index := some 0
          observations_stored := min (st.observations_stored + 1) st.observations_limit
          sub_observations := some s2 } := by
      simp [insert_observation, hli]
    rw [hA]
    refine ⟨?_, ?_, ?_, ?_, ?_, ?_, ?_⟩ <;> dsimp only
    · omega
    · exact ⟨fun h => absurd h (by omega), fun h => Option.noConfusion h⟩
    · exact fun h => Option.noConfusion h
    · intro li2 h
      injection h with h
      omega
    · intro li2 h hlt
      injection h with h
      omega
    · intro li2 h i hi
      exact absurd hi (by omega)
    · intro li2 h s3 hs3
      injection h with h
      injection hs3 with hs3
      rw [← h, ← hs3, Function.update_same]
      exact hcpl
  | some li =>
    have hlilt : li < st.observations_stored := hll li hli
    by_cases hfull : st.observations_stored < st.observations_limit
    · -- ring not yet full: the new index extends the walk
      have hd2 : li + 1 = st.observations_stored := hnf li hli hfull
      have hni : (li + 1) % st.observations_limit = li + 1 :=
        Nat.mod_eq_of_lt (by omega)
      have hA : ({ insert_observation st o with sub_observations := some s2 } : Oracle) =
          { st with
            observations := Function.update st.observations (li + 1) o
            last_observation_index := some (li + 1)
            observations_stored := min (st.observations_stored + 1) st.observations_limit
            sub_observations := some s2 } := by
        simp [insert_observation, hli, hni]
      rw [hA]
      have hmin : min (st.observations_stored + 1) st.observations_limit =
          st.observations_stored + 1 := by omega
      refine ⟨?_, ?_, ?_, ?_, ?_, ?_, ?_⟩ <;> dsimp only
      · omega
      · exact ⟨fun h => absurd h (by omega), fun h => Option.noConfusion h⟩
      · exact fun h => Option.noConfusion h
      · intro li2 h
        injection h with h
        omega
      · intro li2 h hlt
        injection h with h
        omega
      · intro li2 h i hi
        injection h with h
        subst h
        rw [hmin] at hi
        rw [hmin, ← hd2]
        have e1 : (li + 1 + 1 + i) % (li + 1 + 1) = i := by
          rw [Nat.add_mod_left]
          exact Nat.mod_eq_of_lt (by omega)
        have e2 : (li + 1 + 1 + i + 1) % (li + 1 + 1) = i + 1 := by
          rw [show li + 1 + 1 + i + 1 = li + 1 + 1 + (i + 1) from by omega,
            Nat.add_mod_left]
          exact Nat.mod_eq_of_lt (by omega)
        rw [e1, e2]
        rcases Nat.lt_or_ge (i + 1) (li + 1) with hlt2 | hge2
        · rw [Function.update_noteq (by omega : i ≠ li + 1),
            Function.update_noteq (by omega : i + 1 ≠ li + 1)]
          have hadji := hadj li hli i (by omega)
          have f1 : (li + 1 + i) % st.observations_stored = i := by
            rw [← hd2, Nat.add_mod_left]
            exact Nat.mod_eq_of_lt (by omega)
          have f2 : (li + 1 + i + 1) % st.observations_stored = i + 1 := by
            rw [← hd2, show li + 1 + i + 1 = li + 1 + (i + 1) from by omega,
              Nat.add_mod_left]
            exact Nat.mod_eq_of_lt (by omega)
          rw [f1, f2] at hadji
          exact hadji
        · have hieq : i = li := by omega
          subst hieq
          rw [Function.update_noteq (by omega : i ≠ i + 1), Function.update_same]
          exact hnew i hli
      · intro li2 h s3 hs3
        injection h with h
        injection hs3 with hs3
        rw [← h, ← hs3, Function.update_same]
        exact hcpl
    · -- ring full: the new index overwrites the oldest walk position
      have hstl : st.observations_limit = st.observations_stored := by omega
      have hA : ({ insert_observation st o with sub_observations := some s2 } : Oracle) =
          { st with
            observations :=
              Function.update st.observations ((li + 1) % st.observations_stored) o
            last_observation_index := some ((li + 1) % st.observations_stored)
            observations_stored := st.observations_stored
            sub_observations := some s2 } := by
        simp [insert_observation, hli, hstl,
          min_eq_right (show st.observations_stored ≤ st.observations_stored + 1 by omega)]
      rw [hA]
      refine ⟨?_, ?_, ?_, ?_, ?_, ?_, ?_⟩ <;> dsimp only
      · exact hse
      · exact ⟨fun h => absurd h (by omega), fun h => Option.noConfusion h⟩
      · exact fun h => Option.noConfusion h
      · intro li2 h
        injection h with h
        have := Nat.mod_lt (li + 1) (show 0 < st.observations_stored by omega)
        omega
      · intro li2 h hlt
        omega
      · intro li2 h i hi
        injection h with h
        subst h
        have e1 : ((li + 1) % st.observations_stored + 1 + i) % st.observations_stored =
            (li + 2 + i) % st.observations_stored := by
          rw [show (li + 1) % st.observations_stored + 1 + i =
              (li + 1) % st.observations_stored + (1 + i) from by omega,
            Nat.mod_add_mod, show li + 1 + (1 + i) = li + 2 + i from by omega]
        have e2 : ((li + 1) % st.observations_stored + 1 + i + 1) % st.observations_stored =
            (li + 3 + i) % st.observations_stored := by
          rw [show (li + 1) % st.observations_stored + 1 + i + 1 =
              (li + 1) % st.observations_stored + (2 + i) from by omega,
            Nat.mod_add_mod, show li + 1 + (2 + i) = li + 3 + i from by omega]
        rw [e1, e2]
        rcases Nat.lt_or_ge (i + 2) st.observations_stored with hcase | hcase
        · have ne1 : (li + 2 + i) % st.observations_stored ≠
              (li + 1) % st.observations_stored := by
            have hne := mod_add_cancel_ne st.observations_stored (li + 1) (1 + i)
              (by omega) (by omega)
            rw [show li + 1 + (1 + i) = li + 2 + i from by omega] at hne
            exact hne
          have ne2 : (li + 3 + i) % st.observations_stored ≠
              (li + 1) % st.observations_stored := by
            have hne := mod_add_cancel_ne st.observations_stored (li + 1) (2 + i)
              (by omega) (by omega)
            rw [show li + 1 + (2 + i) = li + 3 + i from by omega] at hne
            exact hne
          rw [Function.update_noteq ne1, Function.update_noteq ne2]
          have hadji := hadj li hli (i + 1) (by omega)
          rw [show li + 1 + (i + 1) = li + 2 + i from by omega,
            show li + 2 + i + 1 = li + 3 + i from by omega] at hadji
          exact hadji
        · have hn2 : i + 2 = st.observations_stored := by omega
          have e3 : (li + 2 + i) % st.observations_stored = li := by
            rw [show li + 2 + i = li + st.observations_stored from by omega,
              Nat.add_mod_right]
            exact Nat.mod_eq_of_lt hlilt
          have e4 : (li + 3 + i) % st.observations_stored =
              (li + 1) % st.observations_stored := by
            rw [show li + 3 + i = li + 1 + st.observations_stored from by omega,
              Nat.add_mod_right]
          have ne3 : li ≠ (li + 1) % st.observations_stored := by
            intro hbad
            have hne := mod_add_cancel_ne st.observations_stored li 1
              (by omega) (by omega)
            exact hne (by rw [← hbad]; exact (Nat.mod_eq_of_lt hlilt).symm)
          rw [e3, e4, Function.update_noteq ne3, Function.update_same]
          exact hnew li hli
      · intro li2 h s3 hs3
        injection h with h
        injection hs3 with hs3
        rw [← h, ← hs3, Function.update_same]
        exact hcpl

/-- One `observe` call at an instant no earlier than the accumulator's
last update preserves the ring invariant, keeps the capacity, and leaves
the accumulator's `last_updated` at or before the call instant. -/
theorem observe_step (L : NumLib) (st : Oracle) (now : ℕ) (p : PDec)
    (hlim : 1 ≤ st.observations_limit) (hinv : RingInv st)
    (hwm : ∀ s, st.sub_observations = some s → s.last_updated ≤ now) :
    RingInv (observeRoll L st now p) ∧
    (observeRoll L st now p).observations_limit = st.observations_limit ∧
    (∀ s1, (observeRoll L st now p).sub_observations = some s1 →
      s1.last_updated ≤ now) := by
  cases hsub : st.sub_observations with
  | none =>
    have hro : observeRoll L st now p =
        { st with
          sub_observations := some (new_subobservation (SubObservations.new now) now p) } := by
      simp [observeRoll, observe, observeMem, hsub]
    have hnone := hinv.none_sub hsub
    rw [hro]
    refine ⟨⟨hinv.stored_le, hinv.empty_iff, fun h => Option.noConfusion h,
      hinv.last_lt, hinv.not_full, hinv.adj, ?_⟩, rfl, ?_⟩
    · intro li h s1 hs1
      have h2 : st.last_observation_index = some li := h
      rw [hnone] at h2
      exact Option.noConfusion h2
    · intro s1 hs1
      have hs1a : some (new_subobservation (SubObservations.new now) now p) = some s1 := hs1
      injection hs1a with he
      rw [← he, newsub_last_updated]
  | some s =>
    by_cases hd : now / 60 ≠ s.last_updated / 60
    · cases hc : create_observation L st now with
      | none =>
        have hro : observeRoll L st now p = st := by
          simp [observeRoll, observe, observeMem, hsub, hd, hc]
        rw [hro]
        refine ⟨hinv, rfl, fun s1 hs1 => ?_⟩
        rw [hsub] at hs1
        injection hs1 with he
        rw [← he]
        exact hwm s hsub
      | some pr =>
        obtain ⟨o, sub2⟩ := pr
        have hro : observeRoll L st now p =
            { insert_observation { st with sub_observations := some sub2 } o with
              sub_observations := some (new_subobservation sub2 now p) } := by
          simp [observeRoll, observe, observeMem, hsub, hd, hc]
        have hots : o.timestamp = now / 60 :=
          create_observation_timestamp L st now o sub2 hc
        have hlud : s.last_updated / 60 < now / 60 := by
          have h1 : s.last_updated / 60 ≤ now / 60 := Nat.div_le_div_right (hwm s hsub)
          omega
        rw [hro]
        refine ⟨?_, rfl, ?_⟩
        · apply insert_inv
          · exact hlim
          · exact hinv.stored_le
          · exact hinv.empty_iff
          · exact hinv.last_lt
          · exact hinv.not_full
          · exact hinv.adj
          · intro li h
            have h2 : st.last_observation_index = some li := h
            have h3 := hinv.coupled li h2 s hsub
            have hgoal : (st.observations li).timestamp < o.timestamp := by
              rw [hots]; omega
            exact hgoal
          · rw [hots, newsub_last_updated]
        · intro s1 hs1
          have hs1a : some (new_subobservation sub2 now p) = some s1 := hs1
          injection hs1a with he
          rw [← he, newsub_last_updated]
    · have hd2 : now / 60 = s.last_updated / 60 := by
        rcases eq_or_ne (now / 60) (s.last_updated / 60) with h4 | h4
        · exact h4
        · exact absurd h4 hd
      have hro : observeRoll L st now p =
          { st with sub_observations := some (new_subobservation s now p) } := by
        simp [observeRoll, observe, observeMem, hsub, hd2]
      rw [hro]
      refine ⟨⟨hinv.stored_le, hinv.empty_iff, fun h => Option.noConfusion h,
        hinv.last_lt, hinv.not_full, hinv.adj, ?_⟩, rfl, ?_⟩
      · intro li h s1 hs1
        have h2 : st.last_observation_index = some li := h
        have hs1a : some (new_subobservation s now p) = some s1 := hs1
        injection hs1a with he
        have h3 := hinv.coupled li h2 s hsub
        rw [← he, newsub_last_updated]
        have hgoal : (st.observations li).timestamp ≤ now / 60 := by omega
        exact hgoal
      · intro s1 hs1
        have hs1a : some (new_subobservation s now p) = some s1 := hs1
        injection hs1a with he
        rw [← he, newsub_last_updated]

/-- Running any suffix of observe calls at non-decreasing instants, from a
state satisfying the ring invariant whose accumulator is not ahead of the
first call, preserves the invariant and the capacity. -/
theorem runObserve_inv (L : NumLib) (limit : ℕ) (hlim : 1 ≤ limit) :
    ∀ calls (st : Oracle), st.observations_limit = limit → RingInv st →
      (∀ s, st.sub_observations = some s → ∀ c ∈ calls, s.last_updated ≤ c.1) →
      List.Pairwise (fun a b : ℕ × PDec => a.1 ≤ b.1) calls →
      RingInv (runObserve L st calls) ∧
      (runObserve L st calls).observations_limit = limit := by
  intro calls
  induction calls with
  | nil => intro st hl hinv hw hp; exact ⟨hinv, hl⟩
  | cons c rest ih =>
    intro st hl hinv hw hp
    obtain ⟨t, p⟩ := c
    have hstep := observe_step L st t p (by omega) hinv
      (fun s hs => hw s hs (t, p) (List.mem_cons_self _ _))
    rw [show runObserve L st ((t, p) :: rest) =
        runObserve L (observeRoll L st t p) rest from rfl]
    apply ih
    · rw [hstep.2.1, hl]
    · exact hstep.1
    · intro s1 hs1 c hc
      have h1 : s1.last_updated ≤ t := hstep.2.2 s1 hs1
      have h2 : t ≤ c.1 := (List.pairwise_cons.mp hp).1 c hc
      omega
    · exact (List.pairwise_cons.mp hp).2

/-- C4: starting from a fresh oracle with capacity at least one, any
sequence of `observe` calls at non-decreasing instants leaves a state
satisfying the ring invariants. -/
theorem c4_ring_invariants (L : NumLib) (limit : ℕ) (hlim : 1 ≤ limit)
    (calls : List (ℕ × PDec))
    (hsorted : List.Pairwise (fun a b : ℕ × PDec => a.1 ≤ b.1) calls) :
    RingWalkSpec (runObserve L (Oracle.new limit) calls) := by
  have hinv0 : RingInv (Oracle.new limit) :=
    ⟨Nat.zero_le _, ⟨fun _ => rfl, fun _ => rfl⟩, fun _ => rfl,
     fun li h => Option.noConfusion h, fun li h => Option.noConfusion h,
     fun li h => Option.noConfusion h, fun li h => Option.noConfusion h⟩
  obtain ⟨hinv, hliml⟩ := runObserve_inv L limit hlim calls (Oracle.new limit) rfl hinv0
    (fun s hs => Option.noConfusion hs) hsorted
  refine ⟨hinv.stored_le, hinv.empty_iff, ?_, ?_⟩
  · intro li h
    simp [oldest_index, h]
  · intro oi hoi i j hij hj
    cases hli : (runObserve L (Oracle.new limit) calls).last_observation_index with
    | none =>
      rw [oldest_index, hli] at hoi
      exact Option.noConfusion hoi
    | some li =>
      rw [oldest_index, hli] at hoi
      simp only [Option.map_some'] at hoi
      injection hoi with hoi
      apply strict_of_adjacent
        (fun k => ((runObserve L (Oracle.new limit) calls).observations
          ((oi + k) % (runObserve L (Oracle.new limit) calls).observations_stored)).timestamp)
        (runObserve L (Oracle.new limit) calls).observations_stored ?_ i j hij hj
      intro k hk
      have hadjk := hinv.adj li hli k hk
      have e1 : (oi + k) % (runObserve L (Oracle.new limit) calls).observations_stored =
          (li + 1 + k) % (runObserve L (Oracle.new limit) calls).observations_stored := by
        rw [← hoi, Nat.mod_add_mod]
      have e2 : (oi + (k + 1)) % (runObserve L (Oracle.new limit) calls).observations_stored =
          (li + 1 + k + 1) % (runObserve L (Oracle.new limit) calls).observations_stored := by
        rw [← hoi, Nat.mod_add_mod,
          show li + 1 + (k + 1) = li + 1 + k + 1 from by omega]
      show ((runObserve L (Oracle.new limit) calls).observations
          ((oi + k) % (runObserve L (Oracle.new limit) calls).observations_stored)).timestamp <
        ((runObserve L (Oracle.new limit) calls).observations
          ((oi + (k + 1)) % (runObserve L (Oracle.new limit) calls).observations_stored)).timestamp
      rw [e1, e2]
      exact hadjk

/-- Witness for C4: four observe calls a minute apart on a capacity-2
oracle, exercising first fill and ring wrap-around. -/
theorem c4_ring_invariants_witness :
    (1 ≤ 2 ∧ List.Pairwise (fun a b : ℕ × PDec => a.1 ≤ b.1)
      [(70, 4), (130, 5), (190, 6), (250, 7)]) ∧
    RingWalkSpec (runObserve numLib0 (Oracle.new 2) [(70, 4), (130, 5), (190, 6), (250, 7)]) :=
  ⟨⟨by decide, by decide⟩,
   c4_ring_invariants numLib0 2 (by decide) [(70, 4), (130, 5), (190, 6), (250, 7)] (by decide)⟩

end Oci
